import Mathlib

/-!
Verification development for the RAG (retrieval-augmented generation) core of
the `rag-fixed-income-covenants` repository: text chunker, vector store
(FAISS-backed), and orchestrator error paths.  Python code is shallowly
embedded: text is `List Char`, float vectors are `List ℤ` (exact arithmetic in
place of float32), fallible calls return `Except String`.
-/

namespace RagCore

/-! Part 1: definitions embedding the Python code. -/

/-- The whitespace characters stripped by Python `str.strip()` (ASCII part). -/
def pyIsSpace (c : Char) : Bool :=
  c = ' ' || c = '\t' || c = '\n' || c = '\r' || c = '\x0b' || c = '\x0c'

/-- Python `s.strip()`: drop leading and trailing whitespace. -/
def pyStrip (s : List Char) : List Char :=
  ((s.dropWhile pyIsSpace).reverse.dropWhile pyIsSpace).reverse

/-- The `while start < len(text)` loop of `TextChunker.chunk_text`, with a fuel
parameter standing for the number of remaining permitted iterations; `none`
models non-termination within the given fuel.  Each iteration takes the window
`text[start : start + chunk_size]`, appends its stripped content when non-empty,
and advances `start` to `end - overlap = start + size - ov`. -/
def chunkLoop (size ov : Nat) (text : List Char) : Nat → Nat → Option (List (List Char))
  | 0, start => if start < text.length then none else some []
  | f + 1, start =>
    if start < text.length then
      let chunk := pyStrip ((text.drop start).take size)
      (chunkLoop size ov text f (start + size - ov)).map
        (fun rest => if chunk.isEmpty then rest else chunk :: rest)
    else
      some []

/-- Embeds `TextChunker.chunk_text`: a single chunk when the text fits, otherwise the
sliding-window loop.  Fuel `text.length + 1` is sufficient whenever the Python
loop terminates, since the start advances by at least one per iteration. -/
def chunk_text (size ov : Nat) (text : List Char) : Option (List (List Char)) :=
  if text.length ≤ size then some [text]
  else chunkLoop size ov text (text.length + 1) 0

/-- The sequence of window start offsets visited by the loop (same fuel
discipline as `chunkLoop`). -/
def windowStartsF (size ov len : Nat) : Nat → Nat → Option (List Nat)
  | 0, start => if start < len then none else some []
  | f + 1, start =>
    if start < len then
      (windowStartsF size ov len f (start + size - ov)).map (fun rest => start :: rest)
    else
      some []

/-- Window start offsets for a text of length `len`, from the initial offset 0. -/
def windowStarts (size ov len : Nat) : List Nat :=
  (windowStartsF size ov len (len + 1) 0).getD []

/-- The chunk produced from the window starting at `s`, when non-empty after
stripping. -/
def windowChunk (size : Nat) (text : List Char) (s : Nat) : Option (List Char) :=
  let c := pyStrip ((text.drop s).take size)
  if c.isEmpty then none else some c

instance {e a : Type _} [DecidableEq e] [DecidableEq a] : DecidableEq (Except e a) := fun x y => by
  cases x <;> cases y
  case error.error u v => exact decidable_of_iff (u = v) (by simp)
  case error.ok u v => exact isFalse (by simp)
  case ok.error u v => exact isFalse (by simp)
  case ok.ok u v => exact decidable_of_iff (u = v) (by simp)

/-- Whether an `Except` value is a success. -/
def isOkE {e a : Type _} : Except e a → Bool
  | .ok _ => true
  | .error _ => false

/-- Metadata mapping of a document (`Dict[str, Any]`), embedded as key/value
string pairs. -/
abbrev Metadata := List (String × String)

/-- The `Document` dataclass: content, metadata, optional embedding vector. -/
structure Document where
  content : String
  metadata : Metadata
  embedding : Option (List ℤ)
deriving DecidableEq

instance : Inhabited Document := ⟨⟨"", [], none⟩⟩

/-- A FAISS `IndexFlatL2`: its dimension and the stored vectors in insertion
order. -/
structure FaissIndex where
  d : Nat
  vecs : List (List ℤ)
deriving DecidableEq

/-- Embeds `faiss.IndexFlatL2(dim)`: an empty flat L2 index. -/
def IndexFlatL2 (dim : Nat) : FaissIndex := ⟨dim, []⟩

/-- Squared Euclidean distance between two vectors, the metric of
`IndexFlatL2`. -/
def sqDist (q v : List ℤ) : ℤ := (List.zipWith (fun a b => (a - b) ^ 2) q v).sum

/-- Sentinel distance FAISS reports for missing neighbours: `FLT_MAX`, whose
exact value is `(2 - 2⁻²³) · 2¹²⁷ = 2¹²⁸ - 2¹⁰⁴`. -/
def fltMax : ℤ := 340282346638528859811704183484516925440

/-- Ranking order of scored candidates `(insertion position, distance)`:
ascending distance, ties broken by ascending insertion position. -/
def searchLe (a b : Nat × ℤ) : Prop := a.2 < b.2 ∨ (a.2 = b.2 ∧ a.1 ≤ b.1)

instance : DecidableRel searchLe := fun a b => by
  unfold searchLe
  infer_instance

instance : IsTotal (Nat × ℤ) searchLe := by
  constructor
  intro a b
  rcases lt_trichotomy a.2 b.2 with h | h | h
  · exact Or.inl (Or.inl h)
  · rcases Nat.le_total a.1 b.1 with h' | h'
    · exact Or.inl (Or.inr ⟨h, h'⟩)
    · exact Or.inr (Or.inr ⟨h.symm, h'⟩)
  · exact Or.inr (Or.inl h)

instance : IsTrans (Nat × ℤ) searchLe := by
  constructor
  intro a b c hab hbc
  rcases hab with h1 | ⟨h1, h1'⟩ <;> rcases hbc with h2 | ⟨h2, h2'⟩
  · exact Or.inl (lt_trans h1 h2)
  · exact Or.inl (h2 ▸ h1)
  · exact Or.inl (by rw [h1]; exact h2)
  · exact Or.inr ⟨h1.trans h2, le_trans h1' h2'⟩

instance : IsAntisymm (Nat × ℤ) searchLe := by
  constructor
  intro a b hab hba
  rcases hab with h1 | ⟨h1, h1'⟩ <;> rcases hba with h2 | ⟨h2, h2'⟩
  · exact absurd (lt_trans h1 h2) (lt_irrefl _)
  · exact absurd (h2 ▸ h1) (lt_irrefl _)
  · exact absurd (h1 ▸ h2) (lt_irrefl _)
  · exact Prod.ext (Nat.le_antisymm h1' h2') h1

/-- Each stored vector paired with its insertion position and its squared
distance to the query. -/
def scoredOf (ix : FaissIndex) (q : List ℤ) : List (Nat × ℤ) :=
  ix.vecs.enum.map (fun p => (p.1, sqDist q p.2))

/-- The candidates ranked by ascending distance, ties by ascending insertion
position. -/
def rankedOf (ix : FaissIndex) (q : List ℤ) : List (Nat × ℤ) :=
  (scoredOf ix q).insertionSort searchLe

/-- Modelled from the spec (external FAISS exact k-nearest-neighbour search,
not part of this repository): `IndexFlatL2.search` scores every stored vector
by squared Euclidean distance, returns the `k` best `(index, distance)` pairs
in ascending-distance order with stable ties by insertion position, and pads
missing neighbours with index `-1` and distance `FLT_MAX` when fewer than `k`
vectors are stored. -/
def faissKnn (ix : FaissIndex) (q : List ℤ) (k : Nat) : List (Int × ℤ) :=
  let sorted := rankedOf ix q
  ((sorted.take k).map (fun p => ((p.1 : Int), p.2))) ++
    List.replicate (k - sorted.length) ((-1 : Int), fltMax)

/-- The FAISS Python wrapper checks the query matrix's column count against
the index dimension before searching; a mismatch raises. -/
def faissSearchChecked (ix : FaissIndex) (q : List ℤ) (k : Nat) :
    Except String (List (Int × ℤ)) :=
  if q.length = ix.d then .ok (faissKnn ix q k)
  else .error "query dimension does not match index dimension"

/-- Python list indexing `l[i]`: non-negative indices from the front, negative
indices from the back; anything out of range raises an `IndexError`. -/
def pyGetE {a : Type _} (l : List a) (i : Int) : Except String a :=
  if 0 ≤ i then
    match l[i.toNat]? with
    | some x => .ok x
    | none => .error "list index out of range"
  else
    if (-i).toNat ≤ l.length then
      match l[l.length - (-i).toNat]? with
      | some x => .ok x
      | none => .error "list index out of range"
    else .error "list index out of range"

/-- The `VectorStore` class state: configured dimension, FAISS index, parallel document
list. -/
structure VectorStore where
  embedding_dim : Nat
  index : FaissIndex
  documents : List Document
deriving DecidableEq

/-- Embeds `VectorStore.__init__(embedding_dim)`. -/
def VectorStore.mkNew (dim : Nat) : VectorStore := ⟨dim, IndexFlatL2 dim, []⟩

/-- The result-assembly loop of `VectorStore.search`: for each returned
`(idx, distance)` pair, if `idx < len(documents)` then append
`(documents[idx], distance)` — where the indexing itself may raise an
`IndexError` that aborts the whole call. -/
def searchLoop (docs : List Document) : List (Int × ℤ) → Except String (List (Document × ℤ))
  | [] => .ok []
  | p :: ps =>
    if p.1 < (docs.length : Int) then
      match pyGetE docs p.1 with
      | .error e => .error e
      | .ok d => (searchLoop docs ps).map (fun rest => (d, p.2) :: rest)
    else
      searchLoop docs ps

/-- Embeds `VectorStore.search`: run the FAISS search, then assemble the results. -/
def VectorStore.search (vs : VectorStore) (q : List ℤ) (k : Nat) :
    Except String (List (Document × ℤ)) :=
  match faissSearchChecked vs.index q k with
  | .error e => .error e
  | .ok pairs => searchLoop vs.documents pairs

/-- Collect a list of optional values, failing on the first missing one. -/
def seqOpts {a : Type _} : List (Option a) → Option (List a)
  | [] => some []
  | none :: _ => none
  | some v :: es => (seqOpts es).map (fun rest => v :: rest)

/-- Embeds `np.array([doc.embedding for doc in documents]).astype(float32)`:
yields a numeric matrix only when every embedding is present and all have
equal length; a missing embedding or ragged rows give an object-dtype array
whose `astype` raises. -/
def toFloatMatrix (embs : List (Option (List ℤ))) : Option (List (List ℤ)) :=
  match seqOpts embs with
  | none => none
  | some [] => some []
  | some (r :: rs) => if rs.all (fun x => x.length = r.length) then some (r :: rs) else none

/-- FAISS `index.add(x)`: the Python wrapper unpacks `n, d = x.shape` (an
empty batch gives a 1-D array and raises) and asserts `d == self.d` before
appending the rows. -/
def faissAdd (ix : FaissIndex) (rows : List (List ℤ)) : Except String FaissIndex :=
  match rows with
  | [] => .error "array should be two-dimensional"
  | r :: _ =>
    if r.length = ix.d then .ok ⟨ix.d, ix.vecs ++ rows⟩
    else .error "assert d == self.d"

/-- Embeds `VectorStore.add_documents`: build the embedding matrix, add it to the
FAISS index, then extend the document list.  Any raise happens before the
`extend`, so the store is unchanged on failure. -/
def VectorStore.add_documents (vs : VectorStore) (docs : List Document) :
    Except String VectorStore :=
  match toFloatMatrix (docs.map (fun d => d.embedding)) with
  | none => .error "could not convert embedding array to float32"
  | some rows =>
    match faissAdd vs.index rows with
    | .error e => .error e
    | .ok ix => .ok { vs with index := ix, documents := vs.documents ++ docs }

/-- The pair of artifacts written by `VectorStore.save`: the serialized FAISS
index (`faiss.write_index`, restored verbatim by `faiss.read_index`) and the
JSON document list holding each document's `content` and `metadata` (the
embedding field is not serialized). -/
structure SavedStore where
  indexFile : FaissIndex
  docsFile : List (String × Metadata)
deriving DecidableEq

/-- Embeds `VectorStore.save`. -/
def VectorStore.save (vs : VectorStore) : SavedStore :=
  ⟨vs.index, vs.documents.map (fun d => (d.content, d.metadata))⟩

/-- Embeds `VectorStore.load`: replace the index with the persisted one and rebuild
the document list from the JSON records (no embedding, no dimension check;
`self.embedding_dim` is left as configured). -/
def VectorStore.load (vs : VectorStore) (f : SavedStore) : VectorStore :=
  { vs with
      index := f.indexFile,
      documents := f.docsFile.map (fun p => ⟨p.1, p.2, none⟩) }

/-- A concrete one-dimensional store holding two documents, used to exercise
the FAISS placeholder handling. -/
def docA : Document := ⟨"A", [], some [0]⟩

def docB : Document := ⟨"B", [], some [1]⟩

def vsTwoDocs : VectorStore := ⟨1, ⟨1, [[0], [1]]⟩, [docA, docB]⟩

/-- The serialisable view of a document: content and metadata (the embedding
field is not persisted). -/
def docView (d : Document) : String × Metadata := (d.content, d.metadata)

/-- The serialisable view of a whole store. -/
def storeView (vs : VectorStore) : Nat × FaissIndex × List (String × Metadata) :=
  (vs.embedding_dim, vs.index, vs.documents.map docView)

/-- The serialisable view of one search result. -/
def projPair (r : Document × ℤ) : (String × Metadata) × ℤ := (docView r.1, r.2)

/-- A persisted store written from a 3-dimensional index. -/
def savedDim3 : SavedStore := ⟨⟨3, [[1, 2, 3]]⟩, [("doc", [])]⟩

/-- One source's load-then-embed step of `RAGSystem.ingest_documents`: the
document processor (`load_document`) and the embedding model (`embed_batch`)
are external collaborators, passed in as oracles. -/
def pathLoadEmbed (loader : String → Except String (List Document))
    (embedder : List String → Except String (List (List ℤ))) (p : String) :
    Except String (List (List ℤ)) :=
  match loader p with
  | .error e => .error e
  | .ok ds => embedder (ds.map (fun d => d.content))

/-- The accumulation loop of `ingest_documents`: for each file path, load its
documents, embed their contents, attach the embeddings (Python's
`zip` truncates at the shorter sequence; documents beyond it keep no
embedding), and extend the running list.  The first failure aborts. -/
def collectDocs (loader : String → Except String (List Document))
    (embedder : List String → Except String (List (List ℤ))) :
    List String → Except String (List Document)
  | [] => .ok []
  | p :: ps =>
    match loader p with
    | .error e => .error e
    | .ok ds =>
      match embedder (ds.map (fun d => d.content)) with
      | .error e => .error e
      | .ok embs =>
        match collectDocs loader embedder ps with
        | .error e => .error e
        | .ok rest =>
          .ok ((List.zipWith (fun d em => { d with embedding := some em }) ds embs
            ++ ds.drop embs.length) ++ rest)

/-- Embeds `RAGSystem.ingest_documents`: accumulate all documents over all sources,
then add them to the vector store in a single `add_documents` call at the
end.  Returns the post-call store state and the raised error, if any. -/
def ingest_documents (loader : String → Except String (List Document))
    (embedder : List String → Except String (List (List ℤ)))
    (vs : VectorStore) (paths : List String) : VectorStore × Option String :=
  match collectDocs loader embedder paths with
  | .error e => (vs, some e)
  | .ok allDocs =>
    match vs.add_documents allDocs with
    | .error e => (vs, some e)
    | .ok vs2 => (vs2, none)

/-- Embeds `BedrockLLM.generate`: the Bedrock invocation and response parsing are an
external capability, passed in as an oracle; any raise inside the `try` block
is caught and turned into an error-describing answer string. -/
def BedrockLLM_generate (invoke : String → Except String String) (prompt : String) : String :=
  match invoke prompt with
  | .ok t => t
  | .error e => "Error generating response: " ++ e

/-- The structured result of `RAGSystem.generate_response`: the original
query, the generated (or error-describing) answer text, and the retrieved
documents listed as content/metadata/similarity-score records. -/
structure RAGResponse where
  query : String
  response : String
  retrieved_documents : List (String × Metadata × ℤ)
deriving DecidableEq

/-- The `[Document i]`-labelled, blank-line-separated context block built by
`generate_response` (headers numbered from 1 in retrieval order). -/
def contextOf (docs : List (Document × ℤ)) : String :=
  String.intercalate "\n"
    ((docs.enum.map (fun p =>
      ["[Document " ++ toString (p.1 + 1) ++ "]", p.2.1.content, ""])).flatten)

/-- The single instruction prompt built by `generate_response`. -/
def promptOf (context query : String) : String :=
  "You are a helpful assistant answering questions based on the provided context. Context: "
    ++ context ++ ". Question: " ++ query
    ++ ". Please provide a comprehensive answer based on the context above. If the context doesn\x27t contain enough information to fully answer the question, acknowledge this limitation. Answer:"

/-- Embeds `RAGSystem.retrieve`: embed the query and search the store. -/
def retrieve (embed : String → List ℤ) (vs : VectorStore) (query : String) (k : Nat) :
    Except String (List (Document × ℤ)) :=
  vs.search (embed query) k

/-- Embeds `RAGSystem.generate_response`: retrieve, build the context and prompt,
invoke generation (whose failures are already downgraded to answer text
inside `BedrockLLM.generate`), and assemble the result record.  Retrieval
failures, by contrast, propagate. -/
def generate_response (invoke : String → Except String String) (embed : String → List ℤ)
    (vs : VectorStore) (query : String) (k : Nat) : Except String RAGResponse :=
  match retrieve embed vs query k with
  | .error e => .error e
  | .ok retrieved =>
    .ok ⟨query,
      BedrockLLM_generate invoke (promptOf (contextOf retrieved) query),
      retrieved.map (fun p => (p.1.content, p.1.metadata, p.2))⟩

/-! Part 2: theorems settling the claims. -/

theorem chunkLoop_isSome (size ov : Nat) (text : List Char) (hov : ov < size) :
    ∀ fuel start, text.length ≤ start + fuel → (chunkLoop size ov text fuel start).isSome := by
  intro fuel
  induction fuel with
  | zero =>
    intro start h
    have : ¬ start < text.length := by omega
    simp [chunkLoop, this]
  | succ f ih =>
    intro start h
    by_cases hs : start < text.length
    · simp only [chunkLoop, hs, if_true, Option.isSome_map']
      exact ih (start + size - ov) (by omega)
    · simp [chunkLoop, hs]

theorem windowStartsF_isSome (size ov len : Nat) (hov : ov < size) :
    ∀ fuel start, len ≤ start + fuel → (windowStartsF size ov len fuel start).isSome := by
  intro fuel
  induction fuel with
  | zero =>
    intro start h
    have : ¬ start < len := by omega
    simp [windowStartsF, this]
  | succ f ih =>
    intro start h
    by_cases hs : start < len
    · simp only [windowStartsF, hs, if_true, Option.isSome_map']
      exact ih (start + size - ov) (by omega)
    · simp [windowStartsF, hs]

theorem chunkLoop_eq_filterMap (size ov : Nat) (text : List Char) :
    ∀ fuel start,
      chunkLoop size ov text fuel start =
        (windowStartsF size ov text.length fuel start).map
          (fun l => l.filterMap (windowChunk size text)) := by
  intro fuel
  induction fuel with
  | zero =>
    intro start
    by_cases hs : start < text.length <;> simp [chunkLoop, windowStartsF, hs]
  | succ f ih =>
    intro start
    by_cases hs : start < text.length
    · simp only [chunkLoop, windowStartsF, hs, if_true]
      rw [ih]
      cases hrec : windowStartsF size ov text.length f (start + size - ov) with
      | none => simp
      | some l =>
        simp only [Option.map_some', List.filterMap_cons]
        by_cases hc : (pyStrip ((text.drop start).take size)).isEmpty
        · have he : (pyStrip ((text.drop start).take size)) = [] := by
            simpa using hc
          simp [windowChunk, hc, he]
        · have he : ¬ (pyStrip ((text.drop start).take size)) = [] := by
            simpa using hc
          simp [windowChunk, hc, he]
    · simp [chunkLoop, windowStartsF, hs]

theorem windowStartsF_chain (size ov len : Nat) :
    ∀ fuel start l, windowStartsF size ov len fuel start = some l →
      List.Chain' (fun a b => b = a + size - ov) l ∧
      (∀ s ∈ l, s < len) ∧
      (∀ x ∈ l.head?, x = start) := by
  intro fuel
  induction fuel with
  | zero =>
    intro start l h
    by_cases hs : start < len
    · simp [windowStartsF, hs] at h
    · simp [windowStartsF, hs] at h
      subst h
      simp
  | succ f ih =>
    intro start l h
    by_cases hs : start < len
    · simp only [windowStartsF, hs, if_true] at h
      cases hrec : windowStartsF size ov len f (start + size - ov) with
      | none => rw [hrec] at h; simp at h
      | some l' =>
        rw [hrec] at h
        simp only [Option.map_some', Option.some.injEq] at h
        subst h
        obtain ⟨hchain, hmem, hhead⟩ := ih (start + size - ov) l' hrec
        refine ⟨List.chain'_cons'.mpr ⟨?_, hchain⟩, ?_, ?_⟩
        · intro x hx
          exact (hhead x hx).symm ▸ rfl
        · intro s hsm
          rcases List.mem_cons.mp hsm with h1 | h2
          · exact h1 ▸ hs
          · exact hmem s h2
        · intro x hx
          exact (by simpa using hx : start = x).symm
    · simp [windowStartsF, hs] at h
      subst h
      simp

/-- Claim C3: for chunk_size > 0 and 0 ≤ overlap < chunk_size, a text that fits
in one window is returned unchanged as a singleton; otherwise the chunker
emits, for each visited window start, the window's content stripped of
leading/trailing whitespace when non-empty, advancing each start by
chunk_size - overlap; for chunk_size 1024, overlap 50 and a 2000-character
text the visited starts are 0, 974, 1948 (the last window truncated). -/
theorem C3_chunk_text_spec (text : List Char) (size ov : Nat)
    (hsize : 0 < size) (hov : ov < size) :
    (text.length ≤ size → chunk_text size ov text = some [text]) ∧
    (size < text.length → chunk_text size ov text =
      some ((windowStarts size ov text.length).filterMap (windowChunk size text))) ∧
    windowStarts 1024 50 2000 = [0, 974, 1948] := by
  refine ⟨?_, ?_, by decide⟩
  · intro h
    simp [chunk_text, h]
  · intro h
    have hns : ¬ text.length ≤ size := by omega
    simp only [chunk_text, hns, if_false]
    rw [chunkLoop_eq_filterMap]
    have hsome := windowStartsF_isSome size ov text.length hov (text.length + 1) 0 (by omega)
    obtain ⟨l, hl⟩ := Option.isSome_iff_exists.mp hsome
    simp [windowStarts, hl]

/-- Witness for C3 at text "abc", chunk_size 2, overlap 1. -/
theorem C3_chunk_text_spec_witness :
    (0 < 2 ∧ 1 < 2) ∧
    (((['a', 'b', 'c'] : List Char).length ≤ 2 →
        chunk_text 2 1 ['a', 'b', 'c'] = some [['a', 'b', 'c']]) ∧
     (2 < (['a', 'b', 'c'] : List Char).length →
        chunk_text 2 1 ['a', 'b', 'c'] =
          some ((windowStarts 2 1 3).filterMap (windowChunk 2 ['a', 'b', 'c']))) ∧
     windowStarts 1024 50 2000 = [0, 974, 1948]) :=
  ⟨⟨by decide, by decide⟩, C3_chunk_text_spec ['a', 'b', 'c'] 2 1 (by decide) (by decide)⟩

/-- Claim C4: for chunk_size > 0 and 0 ≤ overlap < chunk_size the
sliding-window loop terminates: the window start strictly increases by
chunk_size - overlap each iteration, every visited start is below the text
length, and the loop exits once the start reaches or exceeds it. -/
theorem C4_chunk_text_terminates (text : List Char) (size ov : Nat)
    (hsize : 0 < size) (hov : ov < size) :
    (∃ r, chunk_text size ov text = some r) ∧
    0 < size - ov ∧
    List.Chain' (fun a b => b = a + size - ov) (windowStarts size ov text.length) ∧
    (∀ s ∈ windowStarts size ov text.length, s < text.length) := by
  have hsome := windowStartsF_isSome size ov text.length hov (text.length + 1) 0 (by omega)
  obtain ⟨l, hl⟩ := Option.isSome_iff_exists.mp hsome
  obtain ⟨hchain, hmem, _⟩ := windowStartsF_chain size ov text.length (text.length + 1) 0 l hl
  refine ⟨?_, by omega, ?_, ?_⟩
  · by_cases h : text.length ≤ size
    · exact ⟨[text], by simp [chunk_text, h]⟩
    · have hck := chunkLoop_isSome size ov text hov (text.length + 1) 0 (by omega)
      obtain ⟨r, hr⟩ := Option.isSome_iff_exists.mp hck
      exact ⟨r, by simp [chunk_text, h, hr]⟩
  · simpa [windowStarts, hl] using hchain
  · simpa [windowStarts, hl] using hmem

/-- Witness for C4 at text "abc", chunk_size 2, overlap 1. -/
theorem C4_chunk_text_terminates_witness :
    (0 < 2 ∧ 1 < 2) ∧
    ((∃ r, chunk_text 2 1 ['a', 'b', 'c'] = some r) ∧
     0 < 2 - 1 ∧
     List.Chain' (fun a b => b = a + 2 - 1) (windowStarts 2 1 (['a', 'b', 'c'] : List Char).length) ∧
     (∀ s ∈ windowStarts 2 1 (['a', 'b', 'c'] : List Char).length,
        s < (['a', 'b', 'c'] : List Char).length)) :=
  ⟨⟨by decide, by decide⟩, C4_chunk_text_terminates ['a', 'b', 'c'] 2 1 (by decide) (by decide)⟩

theorem mem_scoredOf {ix : FaissIndex} {q : List ℤ} {p : Nat × ℤ} (hp : p ∈ scoredOf ix q) :
    p.1 < ix.vecs.length ∧ p.2 = sqDist q (ix.vecs.getD p.1 []) := by
  obtain ⟨a, ha, rfl⟩ := List.mem_map.mp hp
  refine ⟨List.fst_lt_of_mem_enum ha, ?_⟩
  have hget := List.mem_enum_iff_getElem?.mp ha
  simp [hget]

theorem rankedOf_perm (ix : FaissIndex) (q : List ℤ) :
    (rankedOf ix q).Perm (scoredOf ix q) :=
  List.perm_insertionSort searchLe (scoredOf ix q)

theorem rankedOf_sorted (ix : FaissIndex) (q : List ℤ) :
    List.Pairwise searchLe (rankedOf ix q) :=
  List.sorted_insertionSort searchLe (scoredOf ix q)

theorem rankedOf_length (ix : FaissIndex) (q : List ℤ) :
    (rankedOf ix q).length = ix.vecs.length := by
  rw [(rankedOf_perm ix q).length_eq]
  simp [scoredOf]

theorem mem_rankedOf {ix : FaissIndex} {q : List ℤ} {p : Nat × ℤ} (hp : p ∈ rankedOf ix q) :
    p.1 < ix.vecs.length ∧ p.2 = sqDist q (ix.vecs.getD p.1 []) :=
  mem_scoredOf ((rankedOf_perm ix q).mem_iff.mp hp)

theorem searchLoop_all_in_range (docs : List Document) :
    ∀ ps : List (Int × ℤ), (∀ p ∈ ps, 0 ≤ p.1 ∧ p.1 < (docs.length : Int)) →
      searchLoop docs ps = .ok (ps.map (fun p => ((docs[p.1.toNat]?).getD default, p.2))) := by
  intro ps
  induction ps with
  | nil => intro _; rfl
  | cons p ps ih =>
    intro h
    obtain ⟨h0, hlt⟩ := h p (List.mem_cons_self p ps)
    have hn : p.1.toNat < docs.length := by omega
    have hget : docs[p.1.toNat]? = some (docs.get ⟨p.1.toNat, hn⟩) := List.getElem?_eq_getElem hn
    unfold searchLoop
    rw [if_pos hlt]
    have hpy : pyGetE docs p.1 = .ok ((docs[p.1.toNat]?).getD default) := by
      unfold pyGetE
      rw [if_pos h0, hget]
      rfl
    rw [hpy, ih (fun x hx => h x (List.mem_cons_of_mem p hx))]
    rfl

/-- Claim C2: with a well-formed store holding at least k documents and a
query of the configured dimension, search returns the k pairs ranked best by
(distance, insertion position): exactly k results, each the stored document at
that insertion position with its true squared Euclidean distance, in
ascending-distance order with ties broken towards the earlier-inserted
document, and every selected candidate ranks no worse than every rejected
one. -/
theorem C2_search_topk (vs : VectorStore) (q : List ℤ) (k : Nat)
    (hq : q.length = vs.index.d)
    (hpar : vs.documents.length = vs.index.vecs.length)
    (hk : 0 < k) (hkn : k ≤ vs.documents.length) :
    vs.search q k =
      .ok (((rankedOf vs.index q).take k).map
        (fun p => ((vs.documents[p.1]?).getD default, p.2))) ∧
    ((rankedOf vs.index q).take k).length = k ∧
    List.Pairwise searchLe ((rankedOf vs.index q).take k) ∧
    (∀ x ∈ (rankedOf vs.index q).take k, ∀ y ∈ (rankedOf vs.index q).drop k, searchLe x y) ∧
    (rankedOf vs.index q).Perm (scoredOf vs.index q) ∧
    (∀ p ∈ rankedOf vs.index q,
      p.1 < vs.documents.length ∧ p.2 = sqDist q (vs.index.vecs.getD p.1 [])) ∧
    List.Chain' (fun a b => a.2 ≤ b.2)
      (((rankedOf vs.index q).take k).map
        (fun p => ((vs.documents[p.1]?).getD default, p.2))) := by
  have hlen : (rankedOf vs.index q).length = vs.index.vecs.length := rankedOf_length vs.index q
  have htail : ∀ p ∈ rankedOf vs.index q,
      p.1 < vs.documents.length ∧ p.2 = sqDist q (vs.index.vecs.getD p.1 []) := by
    intro p hp
    obtain ⟨h1, h2⟩ := mem_rankedOf hp
    exact ⟨by omega, h2⟩
  have hsorted := rankedOf_sorted vs.index q
  have htake_sorted : List.Pairwise searchLe ((rankedOf vs.index q).take k) := by
    have := List.take_append_drop k (rankedOf vs.index q)
    rw [← this] at hsorted
    exact (List.pairwise_append.mp hsorted).1
  refine ⟨?_, ?_, htake_sorted, ?_, rankedOf_perm vs.index q, htail, ?_⟩
  · have hpad : k - (rankedOf vs.index q).length = 0 := by omega
    simp only [VectorStore.search, faissSearchChecked, faissKnn, if_pos hq, hpad,
      List.replicate_zero, List.append_nil]
    rw [searchLoop_all_in_range]
    · rw [List.map_map]
      congr 1
    · intro p hp
      obtain ⟨x, hx, rfl⟩ := List.mem_map.mp hp
      have := (htail x (List.mem_of_mem_take hx)).1
      constructor
      · show (0 : ℤ) ≤ (x.1 : ℤ)
        exact Int.ofNat_nonneg x.1
      · show (x.1 : ℤ) < ((vs.documents.length : ℤ))
        exact_mod_cast this
  · rw [List.length_take]
    omega
  · intro x hx y hy
    have := List.take_append_drop k (rankedOf vs.index q)
    rw [← this] at hsorted
    exact (List.pairwise_append.mp hsorted).2.2 x hx y hy
  · apply List.Pairwise.chain'
    rw [List.pairwise_map]
    apply htake_sorted.imp
    intro a b hab
    rcases hab with h | ⟨h, _⟩
    · exact le_of_lt h
    · exact le_of_eq h

/-- Witness for C2: a two-document store queried with k = 1. -/
theorem C2_search_topk_witness :
    (([(5 : ℤ)] : List ℤ).length = (⟨1, [[5], [7]]⟩ : FaissIndex).d ∧
     ([⟨"A", [], some [5]⟩, ⟨"B", [], some [7]⟩] : List Document).length =
       (⟨1, [[5], [7]]⟩ : FaissIndex).vecs.length ∧ 0 < 1 ∧
     1 ≤ ([⟨"A", [], some [5]⟩, ⟨"B", [], some [7]⟩] : List Document).length) ∧
    (VectorStore.mk 1 ⟨1, [[5], [7]]⟩ [⟨"A", [], some [5]⟩, ⟨"B", [], some [7]⟩]).search [5] 1 =
      .ok (((rankedOf (⟨1, [[5], [7]]⟩ : FaissIndex) [5]).take 1).map
        (fun p =>
          ((([⟨"A", [], some [5]⟩, ⟨"B", [], some [7]⟩] : List Document)[p.1]?).getD default,
            p.2))) :=
  ⟨⟨by decide, by decide, by decide, by decide⟩,
    (C2_search_topk (VectorStore.mk 1 ⟨1, [[5], [7]]⟩ [⟨"A", [], some [5]⟩, ⟨"B", [], some [7]⟩])
      [5] 1 (by decide) (by decide) (by decide) (by decide)).1⟩

/-- Claim C1 (spec is the intent, code slips): querying the two-document store
with k = 5 should return exactly 2 results, but the `-1` placeholder indices
FAISS pads with pass the `idx < len(self.documents)` guard (`-1 < 2`), and
Python's negative indexing turns `documents[-1]` into the last document, so
the code returns 5 pairs — the last document repeated three times at the
sentinel distance — instead of the claimed `min(k, n) = 2`. -/
theorem C1_search_placeholder_bug :
    vsTwoDocs.search [0] 5 =
      .ok [(docA, 0), (docB, 1), (docB, fltMax), (docB, fltMax), (docB, fltMax)] ∧
    vsTwoDocs.search [0] 5 ≠ .ok [(docA, 0), (docB, 1)] := by
  constructor
  · decide
  · decide

/-- Counterexample to claim C10: on an index that never received a document,
search does not return the empty sequence — it raises `IndexError`.  The
`-1` placeholder does not fail the `idx < len(documents)` guard on an empty
document list: `-1 < 0` holds, so `documents[-1]` is evaluated and is out of
range. -/
theorem C10_counterexample :
    (VectorStore.mkNew 3).search [0, 0, 0] 4 = .error "list index out of range" ∧
    ((-1 : Int) < ((([] : List Document).length : Int))) = True := by
  constructor
  · decide
  · decide

/-- Claim C10 amended: for every query of the configured dimension and every
k > 0, search on a vector index holding no documents raises an `IndexError`
(the `-1` placeholder passes the `idx < len(documents)` guard because
`-1 < 0`, and `documents[-1]` on the empty list is out of range). -/
theorem C10_empty_search_raises (d : Nat) (q : List ℤ) (k : Nat)
    (hq : q.length = d) (hk : 0 < k) :
    (VectorStore.mkNew d).search q k = .error "list index out of range" := by
  obtain ⟨m, rfl⟩ : ∃ m, k = m + 1 := ⟨k - 1, by omega⟩
  have hscored : scoredOf (IndexFlatL2 d) q = [] := rfl
  have hranked : rankedOf (IndexFlatL2 d) q = [] := by
    simp [rankedOf, hscored, List.insertionSort]
  simp only [VectorStore.search, VectorStore.mkNew, faissSearchChecked, faissKnn, hranked]
  rw [if_pos (by simpa [IndexFlatL2] using hq)]
  simp only [List.take_nil, List.map_nil, List.length_nil, Nat.sub_zero, List.nil_append,
    List.replicate_succ]
  show searchLoop [] (((-1 : Int), fltMax) :: List.replicate m ((-1 : Int), fltMax)) = _
  unfold searchLoop
  rw [if_pos (by decide : ((-1 : Int) < (([] : List Document).length : Int)))]
  rfl

/-- Witness for the amended C10 at dimension 2, k = 3. -/
theorem C10_empty_search_raises_witness :
    (([(4 : ℤ), 6] : List ℤ).length = 2 ∧ 0 < 3) ∧
    (VectorStore.mkNew 2).search [4, 6] 3 = .error "list index out of range" :=
  ⟨⟨by decide, by decide⟩, C10_empty_search_raises 2 [4, 6] 3 (by decide) (by decide)⟩

theorem pyGetE_proj (d1 d2 : List Document) (h : d1.map docView = d2.map docView) (i : Int) :
    (pyGetE d1 i).map docView = (pyGetE d2 i).map docView := by
  have hlen : d1.length = d2.length := by
    have := congrArg List.length h
    simpa using this
  have key : ∀ n : Nat, (d1[n]?).map docView = (d2[n]?).map docView := by
    intro n
    have := congrArg (fun l => l[n]?) h
    simpa [List.getElem?_map] using this
  unfold pyGetE
  rw [hlen]
  by_cases h0 : 0 ≤ i
  · simp only [h0, if_true]
    have hk := key i.toNat
    cases h1 : d1[i.toNat]? <;> cases h2 : d2[i.toNat]? <;> rw [h1, h2] at hk <;>
      simp_all [Except.map]
  · simp only [h0, if_false]
    by_cases hr : (-i).toNat ≤ d2.length
    · simp only [hr, if_true]
      have hk := key (d2.length - (-i).toNat)
      cases h1 : d1[d2.length - (-i).toNat]? <;> cases h2 : d2[d2.length - (-i).toNat]? <;>
        rw [h1] at hk <;> rw [h2] at hk <;> simp_all [Except.map]
    · simp [hr, Except.map]

theorem searchLoop_proj (d1 d2 : List Document) (h : d1.map docView = d2.map docView) :
    ∀ ps, (searchLoop d1 ps).map (List.map projPair) =
      (searchLoop d2 ps).map (List.map projPair) := by
  have hlen : d1.length = d2.length := by
    have := congrArg List.length h
    simpa using this
  intro ps
  induction ps with
  | nil => rfl
  | cons p ps ih =>
    unfold searchLoop
    rw [hlen]
    by_cases hg : p.1 < (d2.length : Int)
    · simp only [hg, if_true]
      have hp := pyGetE_proj d1 d2 h p.1
      cases h1 : pyGetE d1 p.1 <;> cases h2 : pyGetE d2 p.1 <;> rw [h1, h2] at hp <;>
        simp_all [Except.map]
      · cases hs1 : searchLoop d1 ps <;> cases hs2 : searchLoop d2 ps <;>
          rw [hs1, hs2] at ih <;> simp_all [Except.map, projPair]
    · simp only [hg, if_false]
      exact ih

theorem add_documents_view_congr (a b : VectorStore)
    (hdim : a.embedding_dim = b.embedding_dim) (hix : a.index = b.index)
    (hd : a.documents.map docView = b.documents.map docView) (ds : List Document) :
    (a.add_documents ds).map storeView = (b.add_documents ds).map storeView := by
  cases hm : toFloatMatrix (ds.map (fun d => d.embedding)) with
  | none =>
    have h1 : a.add_documents ds = .error "could not convert embedding array to float32" := by
      unfold VectorStore.add_documents
      rw [hm]
    have h2 : b.add_documents ds = .error "could not convert embedding array to float32" := by
      unfold VectorStore.add_documents
      rw [hm]
    rw [h1, h2]
  | some rows =>
    have h1 : a.add_documents ds = (match faissAdd a.index rows with
        | .error e => .error e
        | .ok ix => .ok { a with index := ix, documents := a.documents ++ ds }) := by
      unfold VectorStore.add_documents
      rw [hm]
    have h2 : b.add_documents ds = (match faissAdd b.index rows with
        | .error e => .error e
        | .ok ix => .ok { b with index := ix, documents := b.documents ++ ds }) := by
      unfold VectorStore.add_documents
      rw [hm]
    rw [h1, h2, hix]
    cases ha : faissAdd b.index rows with
    | error e => rfl
    | ok ix =>
      simp only [Except.map]
      congr 1
      simp [storeView, hdim, List.map_append, hd]

theorem search_proj_congr (a b : VectorStore) (hix : a.index = b.index)
    (hd : a.documents.map docView = b.documents.map docView) (q : List ℤ) (k : Nat) :
    (a.search q k).map (List.map projPair) = (b.search q k).map (List.map projPair) := by
  unfold VectorStore.search
  rw [hix]
  cases hc : faissSearchChecked b.index q k with
  | error e => rfl
  | ok pairs => exact searchLoop_proj a.documents b.documents hd pairs

/-- Claim C5: saving and loading into a freshly constructed index of the same
dimension restores the persisted state verbatim — the serialisable store view
is unchanged, every search returns the same documents (same content and
metadata), distances and order, and a subsequent add behaves identically. -/
theorem C5_save_load_round_trip (vs : VectorStore) :
    storeView ((VectorStore.mkNew vs.embedding_dim).load vs.save) = storeView vs ∧
    (∀ q k, (((VectorStore.mkNew vs.embedding_dim).load vs.save).search q k).map
        (List.map projPair) = (vs.search q k).map (List.map projPair)) ∧
    (∀ ds, (((VectorStore.mkNew vs.embedding_dim).load vs.save).add_documents ds).map storeView
        = (vs.add_documents ds).map storeView) := by
  have hdocs : ((VectorStore.mkNew vs.embedding_dim).load vs.save).documents.map docView
      = vs.documents.map docView := by
    simp [VectorStore.mkNew, VectorStore.load, VectorStore.save, List.map_map, docView,
      Function.comp]
  have hix : ((VectorStore.mkNew vs.embedding_dim).load vs.save).index = vs.index := rfl
  refine ⟨?_, ?_, ?_⟩
  · simp [storeView, VectorStore.mkNew, VectorStore.load, VectorStore.save, hdocs,
      List.map_map, docView, Function.comp]
  · intro q k
    exact search_proj_congr _ vs hix hdocs q k
  · intro ds
    exact add_documents_view_congr ((VectorStore.mkNew vs.embedding_dim).load vs.save) vs
      rfl hix hdocs ds

theorem seqOpts_eq_some {a : Type _} :
    ∀ (embs : List (Option a)) (rows : List a), seqOpts embs = some rows → embs = rows.map some := by
  intro embs
  induction embs with
  | nil =>
    intro rows h
    simp only [seqOpts, Option.some.injEq] at h
    subst h
    rfl
  | cons e es ih =>
    intro rows h
    cases e with
    | none => simp [seqOpts] at h
    | some v =>
      simp only [seqOpts] at h
      cases hs : seqOpts es with
      | none => rw [hs] at h; simp at h
      | some rs =>
        rw [hs] at h
        simp only [Option.map_some', Option.some.injEq] at h
        subst h
        rw [ih rs hs]
        rfl

theorem seqOpts_map_some {a : Type _} : ∀ rows : List a, seqOpts (rows.map some) = some rows := by
  intro rows
  induction rows with
  | nil => rfl
  | cons r rs ih => simp [seqOpts, ih]

theorem toFloatMatrix_some (embs : List (Option (List ℤ))) (rows : List (List ℤ))
    (h : toFloatMatrix embs = some rows) :
    embs = rows.map some ∧ ∀ x ∈ rows, ∀ y ∈ rows, x.length = y.length := by
  unfold toFloatMatrix at h
  split at h
  · simp at h
  · rename_i heq
    simp only [Option.some.injEq] at h
    subst h
    exact ⟨seqOpts_eq_some embs [] heq, by simp⟩
  · rename_i r rs heq
    split at h
    · rename_i hall
      simp only [Option.some.injEq] at h
      subst h
      refine ⟨seqOpts_eq_some embs (r :: rs) heq, ?_⟩
      have huni : ∀ x ∈ r :: rs, x.length = r.length := by
        intro x hx
        rcases List.mem_cons.mp hx with h1 | h2
        · rw [h1]
        · exact of_decide_eq_true (List.all_eq_true.mp hall x h2)
      intro x hx y hy
      rw [huni x hx, huni y hy]
    · simp at h

theorem map_embedding_all_some (docs : List Document) (P : List ℤ → Prop)
    (h : ∀ d ∈ docs, ∃ v, d.embedding = some v ∧ P v) :
    docs.map (fun d => d.embedding) = (docs.map (fun d => d.embedding.getD [])).map some := by
  induction docs with
  | nil => rfl
  | cons d ds ih =>
    obtain ⟨v, hv, _⟩ := h d (List.mem_cons_self d ds)
    simp only [List.map_cons, List.map_map]
    rw [hv]
    have := ih (fun x hx => h x (List.mem_cons_of_mem d hx))
    simp only [List.map_map] at this
    rw [this]
    simp [hv]

/-- Counterexample to claim C6: `add_documents` performs no per-document
validation and raises no error naming the offending index — two batches whose
offending document sits at different positions (0 in the first, 1 in the
second) produce the very same library-level error; and even the empty batch,
in which every document is vacuously valid, fails (the empty embedding matrix
is one-dimensional and FAISS's shape unpacking raises). -/
theorem C6_counterexample :
    (VectorStore.mkNew 2).add_documents [⟨"b", [], some [1, 2, 3]⟩, ⟨"g", [], some [1, 2]⟩] =
      (VectorStore.mkNew 2).add_documents [⟨"g", [], some [1, 2]⟩, ⟨"b", [], some [1, 2, 3]⟩] ∧
    isOkE ((VectorStore.mkNew 2).add_documents
      [⟨"b", [], some [1, 2, 3]⟩, ⟨"g", [], some [1, 2]⟩]) = false ∧
    isOkE ((VectorStore.mkNew 2).add_documents ([] : List Document)) = false := by
  refine ⟨by decide, by decide, by decide⟩

/-- Claim C6 amended: if the batch is non-empty and every document carries an
embedding of exactly the index dimension, `add_documents` appends the
documents and their vectors in input order; otherwise (empty batch, missing
embedding, or any dimension mismatch) it raises a batch-level library error —
one that does not identify the offending document's position — and the store
is left unchanged. -/
theorem C6_add_documents_amended (vs : VectorStore) (docs : List Document) :
    (docs ≠ [] → (∀ d ∈ docs, ∃ v, d.embedding = some v ∧ v.length = vs.index.d) →
      vs.add_documents docs = .ok
        ⟨vs.embedding_dim,
         ⟨vs.index.d, vs.index.vecs ++ docs.map (fun d => d.embedding.getD [])⟩,
         vs.documents ++ docs⟩) ∧
    (¬ (docs ≠ [] ∧ ∀ d ∈ docs, ∃ v, d.embedding = some v ∧ v.length = vs.index.d) →
      isOkE (vs.add_documents docs) = false) := by
  constructor
  · intro hne hvalid
    obtain ⟨r0, rs0, hrows⟩ : ∃ a b, docs.map (fun d => d.embedding.getD []) = a :: b := by
      cases docs with
      | nil => exact absurd rfl hne
      | cons d ds => exact ⟨_, _, rfl⟩
    have hall : ∀ row ∈ docs.map (fun d => d.embedding.getD []), row.length = vs.index.d := by
      intro row hrow
      obtain ⟨d, hd, rfl⟩ := List.mem_map.mp hrow
      obtain ⟨v, hv, hlen⟩ := hvalid d hd
      rw [hv]
      exact hlen
    have hm : toFloatMatrix (docs.map (fun d => d.embedding))
        = some (docs.map (fun d => d.embedding.getD [])) := by
      rw [map_embedding_all_some docs _ hvalid]
      unfold toFloatMatrix
      rw [seqOpts_map_some, hrows]
      have hcond : (rs0.all fun x => decide (x.length = r0.length)) = true := by
        apply List.all_eq_true.mpr
        intro x hx
        have h1 : r0.length = vs.index.d := hall r0 (hrows ▸ List.mem_cons_self r0 rs0)
        have h2 : x.length = vs.index.d := hall x (hrows ▸ List.mem_cons_of_mem r0 hx)
        exact decide_eq_true (by rw [h1, h2])
      show (if (rs0.all fun x => decide (x.length = r0.length)) = true
          then some (r0 :: rs0) else none) = some (r0 :: rs0)
      rw [if_pos hcond]
    have hr0 : r0.length = vs.index.d := hall r0 (hrows ▸ List.mem_cons_self r0 rs0)
    unfold VectorStore.add_documents
    rw [hm, hrows]
    show (match faissAdd vs.index (r0 :: rs0) with
      | Except.error e => Except.error e
      | Except.ok ix =>
        Except.ok { vs with index := ix, documents := vs.documents ++ docs }) = _
    simp [faissAdd, hr0]
  · intro hbad
    by_cases hnil : docs = []
    · subst hnil
      rfl
    · have hvalidn : ¬ ∀ d ∈ docs, ∃ v, d.embedding = some v ∧ v.length = vs.index.d := by
        intro hv
        exact hbad ⟨hnil, hv⟩
      push_neg at hvalidn
      obtain ⟨d0, hd0, hbadd⟩ := hvalidn
      cases hm : toFloatMatrix (docs.map (fun d => d.embedding)) with
      | none =>
        have : vs.add_documents docs = .error "could not convert embedding array to float32" := by
          unfold VectorStore.add_documents
          rw [hm]
        rw [this]
        rfl
      | some rows =>
        obtain ⟨hembs, huni⟩ := toFloatMatrix_some _ rows hm
        have hmem : d0.embedding ∈ rows.map some := by
          rw [← hembs]
          exact List.mem_map_of_mem (fun d => d.embedding) hd0
        obtain ⟨v, hv, hveq⟩ := List.mem_map.mp hmem
        have hvlen : v.length ≠ vs.index.d := by
          intro hcontra
          exact hbadd v hveq.symm hcontra
        cases rows with
        | nil => exact absurd hv (by simp)
        | cons r rs =>
          have hru : r.length = v.length := huni r (List.mem_cons_self r rs) v hv
          have hrlen : r.length ≠ vs.index.d := by
            rw [hru]
            exact hvlen
          have : vs.add_documents docs = .error "assert d == self.d" := by
            unfold VectorStore.add_documents
            rw [hm]
            show (match faissAdd vs.index (r :: rs) with
              | Except.error e => Except.error e
              | Except.ok ix =>
                Except.ok { vs with index := ix, documents := vs.documents ++ docs }) = _
            simp [faissAdd, hrlen]
          rw [this]
          rfl

/-- Witness for the amended C6: a valid two-document batch is appended in
order; a batch with a wrong-dimension document is rejected. -/
theorem C6_add_documents_amended_witness :
    (VectorStore.mkNew 2).add_documents [⟨"x", [], some [1, 2]⟩, ⟨"y", [], some [3, 4]⟩] =
      .ok ⟨2, ⟨2, [] ++ [[1, 2], [3, 4]]⟩,
        [] ++ [⟨"x", [], some [1, 2]⟩, ⟨"y", [], some [3, 4]⟩]⟩ ∧
    isOkE ((VectorStore.mkNew 2).add_documents [⟨"z", [], some [1]⟩]) = false := by
  constructor
  · have h := (C6_add_documents_amended (VectorStore.mkNew 2)
      [⟨"x", [], some [1, 2]⟩, ⟨"y", [], some [3, 4]⟩]).1 (by decide)
      (by
        intro d hd
        rcases List.mem_cons.mp hd with h1 | h2
        · exact ⟨[1, 2], by rw [h1], by decide⟩
        · have h3 : d = ⟨"y", [], some [3, 4]⟩ := by simpa using h2
          exact ⟨[3, 4], by rw [h3], by decide⟩)
    simpa using h
  · exact (C6_add_documents_amended (VectorStore.mkNew 2) [⟨"z", [], some [1]⟩]).2 (by
      intro hcontra
      obtain ⟨-, hv⟩ := hcontra
      obtain ⟨v, hveq, hvlen⟩ := hv ⟨"z", [], some [1]⟩ (List.mem_cons_self _ _)
      simp at hveq
      rw [← hveq] at hvlen
      exact absurd hvlen (by decide))

/-- Counterexample to claim C7: loading a persisted store whose vector
dimension (3) differs from the configured dimension (2) is not a fatal
error — `load` succeeds unconditionally, installing the mismatched index
while the configured `embedding_dim` stays 2, so the index is not left in its
last known-good state. -/
theorem C7_counterexample :
    ((VectorStore.mkNew 2).load savedDim3).index.d = 3 ∧
    ((VectorStore.mkNew 2).load savedDim3).embedding_dim = 2 ∧
    ((VectorStore.mkNew 2).load savedDim3).documents.length = 1 ∧
    (VectorStore.mkNew 2).load savedDim3 ≠ VectorStore.mkNew 2 := by
  refine ⟨by decide, by decide, by decide, by decide⟩

/-- Claim C7 amended: `load` performs no dimension check — it unconditionally
replaces the index and the document list with the persisted ones and leaves
the configured `embedding_dim` untouched (now stale); only a later search
with a query of the configured dimension fails FAISS's dimension assertion. -/
theorem C7_load_no_dimension_check (vs : VectorStore) (f : SavedStore) :
    (vs.load f).index = f.indexFile ∧
    (vs.load f).embedding_dim = vs.embedding_dim ∧
    (vs.load f).documents = f.docsFile.map (fun p => ⟨p.1, p.2, none⟩) ∧
    (∀ q k, q.length = vs.embedding_dim → vs.embedding_dim ≠ f.indexFile.d →
      (vs.load f).search q k = .error "query dimension does not match index dimension") := by
  refine ⟨rfl, rfl, rfl, ?_⟩
  intro q k hq hne
  unfold VectorStore.search faissSearchChecked
  rw [if_neg]
  show ¬ q.length = (vs.load f).index.d
  rw [hq]
  exact hne

/-- Witness for the amended C7 at the concrete mismatched artifact. -/
theorem C7_load_no_dimension_check_witness :
    (([(0 : ℤ), 0] : List ℤ).length = (VectorStore.mkNew 2).embedding_dim ∧
     (VectorStore.mkNew 2).embedding_dim ≠ savedDim3.indexFile.d) ∧
    ((VectorStore.mkNew 2).load savedDim3).search [0, 0] 1 =
      .error "query dimension does not match index dimension" :=
  ⟨⟨by decide, by decide⟩,
    (C7_load_no_dimension_check (VectorStore.mkNew 2) savedDim3).2.2.2 [0, 0] 1
      (by decide) (by decide)⟩

theorem collectDocs_error_of_fail (loader : String → Except String (List Document))
    (embedder : List String → Except String (List (List ℤ)))
    : ∀ paths, (∃ p ∈ paths, isOkE (pathLoadEmbed loader embedder p) = false) →
      ∃ e, collectDocs loader embedder paths = .error e := by
  intro paths
  induction paths with
  | nil =>
    intro h
    simp at h
  | cons p ps ih =>
    intro h
    cases hl : loader p with
    | error e =>
      refine ⟨e, ?_⟩
      unfold collectDocs
      simp only [hl]
    | ok ds =>
      cases he : embedder (ds.map (fun d => d.content)) with
      | error e =>
        refine ⟨e, ?_⟩
        unfold collectDocs
        simp only [hl, he]
      | ok embs =>
        have hps : ∃ q ∈ ps, isOkE (pathLoadEmbed loader embedder q) = false := by
          obtain ⟨q, hq, hfail⟩ := h
          rcases List.mem_cons.mp hq with h1 | h2
          · exfalso
            subst h1
            simp [pathLoadEmbed, hl, he, isOkE] at hfail
          · exact ⟨q, h2, hfail⟩
        obtain ⟨e, hcd⟩ := ih hps
        refine ⟨e, ?_⟩
        unfold collectDocs
        simp only [hl, he, hcd]

/-- Claim C8: if loading or embedding any single source fails, the whole
ingest call aborts with an error before the single `add_documents` call at
the end, so the vector store is exactly what it was before the call. -/
theorem C8_ingest_no_partial_commit (loader : String → Except String (List Document))
    (embedder : List String → Except String (List (List ℤ)))
    (vs : VectorStore) (paths : List String)
    (h : ∃ p ∈ paths, isOkE (pathLoadEmbed loader embedder p) = false) :
    (ingest_documents loader embedder vs paths).1 = vs ∧
    (ingest_documents loader embedder vs paths).2.isSome = true := by
  obtain ⟨e, hcd⟩ := collectDocs_error_of_fail loader embedder paths h
  unfold ingest_documents
  rw [hcd]
  exact ⟨rfl, rfl⟩

/-- Witness for C8: a loader whose only source fails leaves the store
untouched. -/
theorem C8_ingest_no_partial_commit_witness :
    (∃ p ∈ ["a.txt"], isOkE (pathLoadEmbed (fun _ => .error "io failure")
      (fun _ => .ok []) p) = false) ∧
    (ingest_documents (fun _ => .error "io failure") (fun _ => .ok [])
      (VectorStore.mkNew 4) ["a.txt"]).1 = VectorStore.mkNew 4 ∧
    (ingest_documents (fun _ => .error "io failure") (fun _ => .ok [])
      (VectorStore.mkNew 4) ["a.txt"]).2.isSome = true :=
  have hfail : ∃ p ∈ ["a.txt"], isOkE (pathLoadEmbed (fun _ => .error "io failure")
      (fun _ => .ok []) p) = false :=
    ⟨"a.txt", List.mem_cons_self "a.txt" [], rfl⟩
  ⟨hfail,
    C8_ingest_no_partial_commit (fun _ => .error "io failure") (fun _ => .ok [])
      (VectorStore.mkNew 4) ["a.txt"] hfail⟩

/-- Claim C9: if the generation provider raises on every prompt,
`generate_response` still returns normally: the answer field is an
error-describing string, and the result carries the original query and the
full retrieved list with its similarity scores. -/
theorem C9_generation_error_degraded (invoke : String → Except String String)
    (embed : String → List ℤ) (vs : VectorStore) (query : String) (k : Nat) (e : String)
    (hinv : ∀ p, invoke p = .error e)
    (hret : ∃ r, vs.search (embed query) k = .ok r) :
    ∃ res, generate_response invoke embed vs query k = .ok res ∧
      res.response = "Error generating response: " ++ e ∧
      res.query = query ∧
      (∀ r, vs.search (embed query) k = .ok r →
        res.retrieved_documents = r.map (fun p => (p.1.content, p.1.metadata, p.2))) := by
  obtain ⟨r, hr⟩ := hret
  have hgen : generate_response invoke embed vs query k =
      .ok ⟨query,
        BedrockLLM_generate invoke (promptOf (contextOf r) query),
        r.map (fun p => (p.1.content, p.1.metadata, p.2))⟩ := by
    unfold generate_response retrieve
    rw [hr]
  refine ⟨_, hgen, ?_, rfl, ?_⟩
  · show BedrockLLM_generate invoke (promptOf (contextOf r) query) = _
    unfold BedrockLLM_generate
    rw [hinv]
  · intro r' hr'
    rw [hr] at hr'
    have : r = r' := by
      injection hr'
    rw [← this]

/-- Witness for C9: a universally failing provider against the two-document
store. -/
theorem C9_generation_error_degraded_witness :
    ((∀ p : String, (fun _ : String => (.error "boom" : Except String String)) p
        = .error "boom") ∧
     (∃ r, vsTwoDocs.search ((fun _ : String => [(0 : ℤ)]) "q") 1 = .ok r)) ∧
    (∃ res, generate_response (fun _ => .error "boom") (fun _ => [0]) vsTwoDocs "q" 1 =
        .ok res ∧
      res.response = "Error generating response: " ++ "boom" ∧
      res.query = "q" ∧
      (∀ r, vsTwoDocs.search ((fun _ => [(0 : ℤ)]) "q") 1 = .ok r →
        res.retrieved_documents = r.map (fun p => (p.1.content, p.1.metadata, p.2)))) :=
  ⟨⟨fun _ => rfl, ⟨[(docA, 0)], by decide⟩⟩,
    C9_generation_error_degraded (fun _ => .error "boom") (fun _ => [0]) vsTwoDocs "q" 1
      "boom" (fun _ => rfl) ⟨[(docA, 0)], by decide⟩⟩
